import Mathlib

/-!
Verification development for the card-information module (src/info.rs) of a
cooperative card game belief tracker.  Rust data structures are shallowly
embedded: HashSet becomes Finset (membership, insert and erase are faithful;
iteration order is unspecified in the source and all statements below are
order-insensitive), HashMap Card u32 becomes a total function
Card -> Option Nat (key absence is none), and &mut self methods become
state-passing functions.
-/

set_option maxRecDepth 10000

namespace HanabiInfo

/-- Modelled from the spec: the closed color catalog lives in cards.rs, which
is external to the supplied source.  Five colors with a fixed enumeration. -/
inductive Color where
  | Red
  | Yellow
  | Green
  | Blue
  | White
deriving DecidableEq, Fintype

/-- Modelled from the spec: the closed value catalog 1..5 of cards.rs,
external to the supplied source. -/
inductive Value where
  | one
  | two
  | three
  | four
  | five
deriving DecidableEq, Fintype

/-- Modelled from the spec: the fixed enumeration COLORS of cards.rs. -/
def COLORS : List Color := [.Red, .Yellow, .Green, .Blue, .White]

/-- Modelled from the spec: the fixed enumeration VALUES of cards.rs. -/
def VALUES : List Value := [.one, .two, .three, .four, .five]

/-- Modelled from the spec: deck copy counts per value (value 1 has 3 copies,
values 2 to 4 have 2, value 5 has 1); lives in cards.rs, external to src/. -/
def get_count_for_value : Value → Nat
  | .one => 3
  | .two => 2
  | .three => 2
  | .four => 2
  | .five => 1

/-- Card: immutable (color, value) pair, from the external cards.rs. -/
structure Card where
  color : Color
  value : Value
deriving DecidableEq, Fintype

/-- Card::new from the external cards.rs. -/
def Card.new (color : Color) (value : Value) : Card := ⟨color, value⟩

/-! The generic trait Info<T> (src/info.rs lines 91-134).  The backing
HashSet<T> is modelled as a Finset T. -/

/-- Info::is_possible: set membership (info.rs line 105). -/
def Info.is_possible {T : Type} [DecidableEq T] (s : Finset T) (v : T) : Bool :=
  decide (v ∈ s)

/-- Info::initialize: inserts every element of the full domain into a fresh
set (info.rs lines 109-115). -/
def Info.initSet {T : Type} [DecidableEq T] (all : List T) : Finset T :=
  all.toFinset

/-- Info::mark_true: clears the possibility set and inserts the single given
value (info.rs lines 117-121).  The source performs no assertion: the prior
contents are discarded unconditionally. -/
def Info.mark_true {T : Type} [DecidableEq T] (_s : Finset T) (v : T) : Finset T :=
  insert v (∅ : Finset T)

/-- Info::mark_false: removes the value from the set (info.rs lines 123-125). -/
def Info.mark_false {T : Type} [DecidableEq T] (s : Finset T) (v : T) : Finset T :=
  s.erase v

/-- Info::mark: dispatch (info.rs lines 127-133). -/
def Info.mark {T : Type} [DecidableEq T] (s : Finset T) (v : T) (info : Bool) : Finset T :=
  if info then Info.mark_true s v else Info.mark_false s v

/-- ColorInfo::new (info.rs line 139): possibility set over Color,
initialized from COLORS. -/
def ColorInfo.new : Finset Color := Info.initSet COLORS

/-- ValueInfo::new (info.rs line 150): possibility set over Value,
initialized from VALUES. -/
def ValueInfo.new : Finset Value := Info.initSet VALUES

/-- Applying a sequence of Info::mark_false calls in order. -/
def applyFalses {T : Type} [DecidableEq T] (s : Finset T) (vs : List T) : Finset T :=
  vs.foldl Info.mark_false s

/-! The CardInfo trait (info.rs lines 9-87) shared by both card-level
models, and its two implementors. -/

/-- The CardInfo trait: required methods, plus the two methods each model
overrides (get_weight defaults to 1; get_possibilities defaults to a catalog
scan; both implementors are modelled with their effective method bodies). -/
class CardInfo (σ : Type) where
  is_possible : σ → Card → Bool
  mark_color_false : σ → Color → σ
  mark_value_false : σ → Value → σ
  get_weight : σ → Card → Nat
  get_possibilities : σ → List Card

/-- CardInfo::get_all_possibilities (info.rs lines 11-19): full Cartesian
product of COLORS and VALUES in catalog order. -/
def get_all_possibilities : List Card :=
  COLORS.flatMap (fun color => VALUES.map (fun value => Card.new color value))

/-- CardInfo::mark_color_true (info.rs lines 55-61): marks every other
catalog color false. -/
def mark_color_true {σ : Type} [CardInfo σ] (s : σ) (color : Color) : σ :=
  COLORS.foldl
    (fun s other_color =>
      if other_color = color then s else CardInfo.mark_color_false s other_color) s

/-- CardInfo::mark_value_true (info.rs lines 73-79): marks every other
catalog value false. -/
def mark_value_true {σ : Type} [CardInfo σ] (s : σ) (value : Value) : σ :=
  VALUES.foldl
    (fun s other_value =>
      if other_value = value then s else CardInfo.mark_value_false s other_value) s

/-- CardInfo::get_weighted_possibilities (info.rs lines 43-50). -/
def get_weighted_possibilities {σ : Type} [CardInfo σ] (s : σ) : List (Card × Nat) :=
  (CardInfo.get_possibilities s).map (fun card => (card, CardInfo.get_weight s card))

/-- SimpleCardInfo (info.rs lines 160-171): one color possibility set and
one value possibility set, assumed independent. -/
structure SimpleCardInfo where
  color_info : Finset Color
  value_info : Finset Value
deriving DecidableEq

/-- SimpleCardInfo::new (info.rs lines 166-171). -/
def SimpleCardInfo.new : SimpleCardInfo := ⟨ColorInfo.new, ValueInfo.new⟩

/-- SimpleCardInfo is_possible (info.rs lines 183-187): color possible AND
value possible. -/
def SimpleCardInfo.is_possible (s : SimpleCardInfo) (card : Card) : Bool :=
  Info.is_possible s.color_info card.color && Info.is_possible s.value_info card.value

/-- SimpleCardInfo mark_color_false (info.rs lines 188-191): delegates to
the color tracker. -/
def SimpleCardInfo.mark_color_false (s : SimpleCardInfo) (color : Color) : SimpleCardInfo :=
  ⟨Info.mark_false s.color_info color, s.value_info⟩

/-- SimpleCardInfo mark_value_false (info.rs lines 192-194): delegates to
the value tracker. -/
def SimpleCardInfo.mark_value_false (s : SimpleCardInfo) (value : Value) : SimpleCardInfo :=
  ⟨s.color_info, Info.mark_false s.value_info value⟩

/-- SimpleCardInfo get_possibilities (info.rs lines 174-182): Cartesian
product of the two possibility sets.  The source iterates each HashSet in
unspecified order; the model fixes catalog order (every statement proved
below about this list is order-insensitive). -/
def SimpleCardInfo.get_possibilities (s : SimpleCardInfo) : List Card :=
  (COLORS.filter (fun color => Info.is_possible s.color_info color)).flatMap
    (fun color =>
      (VALUES.filter (fun value => Info.is_possible s.value_info value)).map
        (fun value => Card.new color value))

/-- SimpleCardInfo does not override get_weight, so the trait default of 1
(info.rs lines 39-42) applies for every card, possible or not. -/
def SimpleCardInfo.get_weight (_s : SimpleCardInfo) (_card : Card) : Nat := 1

instance SimpleCardInfo.cardInfoImpl : CardInfo SimpleCardInfo where
  is_possible := SimpleCardInfo.is_possible
  mark_color_false := SimpleCardInfo.mark_color_false
  mark_value_false := SimpleCardInfo.mark_value_false
  get_weight := SimpleCardInfo.get_weight
  get_possibilities := SimpleCardInfo.get_possibilities

/-- CardPossibilityTable (info.rs lines 219-222): HashMap from Card to
remaining-copy weight, modelled as Card -> Option Nat (absent key = none). -/
structure CardPossibilityTable where
  possible : Card → Option Nat

/-- CardPossibilityTable::new (info.rs lines 224-237): every catalog card is
inserted with the deck copy count for its value.  Color and Value are closed
catalogs, so every Card receives an entry. -/
def CardPossibilityTable.new : CardPossibilityTable :=
  ⟨fun card => some (get_count_for_value card.value)⟩

/-- CardPossibilityTable::mark_false (info.rs lines 240-242): removes the
card key. -/
def CardPossibilityTable.mark_false (t : CardPossibilityTable) (card : Card) :
    CardPossibilityTable :=
  ⟨fun c => if c = card then none else t.possible c⟩

/-- CardPossibilityTable is_possible (info.rs lines 245-247): key presence. -/
def CardPossibilityTable.is_possible (t : CardPossibilityTable) (card : Card) : Bool :=
  (t.possible card).isSome

/-- CardPossibilityTable mark_color_false (info.rs lines 253-258): removes
the card (color, value) for every catalog value. -/
def CardPossibilityTable.mark_color_false (t : CardPossibilityTable) (color : Color) :
    CardPossibilityTable :=
  VALUES.foldl (fun t value => t.mark_false (Card.new color value)) t

/-- CardPossibilityTable mark_value_false (info.rs lines 259-263): removes
the card (color, value) for every catalog color. -/
def CardPossibilityTable.mark_value_false (t : CardPossibilityTable) (value : Value) :
    CardPossibilityTable :=
  COLORS.foldl (fun t color => t.mark_false (Card.new color value)) t

/-- CardPossibilityTable get_weight (info.rs lines 264-266): stored count,
or 0 when the key is absent. -/
def CardPossibilityTable.get_weight (t : CardPossibilityTable) (card : Card) : Nat :=
  (t.possible card).getD 0

/-- CardPossibilityTable get_possibilities (info.rs lines 248-252): the keys,
sorted by card order (color first, then value).  The catalog enumeration
get_all_possibilities is exactly that order, so the sorted key list equals
the catalog list filtered to the present keys. -/
def CardPossibilityTable.get_possibilities (t : CardPossibilityTable) : List Card :=
  get_all_possibilities.filter (fun card => (t.possible card).isSome)

instance CardPossibilityTable.cardInfoImpl : CardInfo CardPossibilityTable where
  is_possible := CardPossibilityTable.is_possible
  mark_color_false := CardPossibilityTable.mark_color_false
  mark_value_false := CardPossibilityTable.mark_value_false
  get_weight := CardPossibilityTable.get_weight
  get_possibilities := CardPossibilityTable.get_possibilities

/-! Operation sequences used to describe reachable states. -/

/-- One color-wide or value-wide CardInfo mutation (the false primitives and
the true operations derived from them). -/
inductive CardOp where
  | colorFalse (color : Color)
  | valueFalse (value : Value)
  | colorTrue (color : Color)
  | valueTrue (value : Value)

/-- Apply one CardOp through the CardInfo trait. -/
def applyOp {σ : Type} [CardInfo σ] (s : σ) : CardOp → σ
  | .colorFalse color => CardInfo.mark_color_false s color
  | .valueFalse value => CardInfo.mark_value_false s value
  | .colorTrue color => mark_color_true s color
  | .valueTrue value => mark_value_true s value

/-- Apply a sequence of CardOps in order. -/
def applyOps {σ : Type} [CardInfo σ] (s : σ) (ops : List CardOp) : σ :=
  ops.foldl applyOp s

/-- A purely excluding operation: mark_color_false or mark_value_false. -/
inductive ExclOp where
  | colorFalse (color : Color)
  | valueFalse (value : Value)

/-- Apply one exclusion through the CardInfo trait. -/
def applyExclOp {σ : Type} [CardInfo σ] (s : σ) : ExclOp → σ
  | .colorFalse color => CardInfo.mark_color_false s color
  | .valueFalse value => CardInfo.mark_value_false s value

/-- Apply a sequence of exclusions in order. -/
def applyExclOps {σ : Type} [CardInfo σ] (s : σ) (ops : List ExclOp) : σ :=
  ops.foldl applyExclOp s

/-- Sum of get_weight over the still-possible cards of a given value. -/
def sum_weights_for_value (t : CardPossibilityTable) (v : Value) : Nat :=
  ((CardPossibilityTable.get_possibilities t).filter (fun card => decide (card.value = v))).foldl
    (fun acc card => acc + CardPossibilityTable.get_weight t card) 0

/-- Modelled from the spec: the single-character color renderer of cards.rs,
external to src/. -/
def display_color : Color → Char
  | .Red => 'R'
  | .Yellow => 'Y'
  | .Green => 'G'
  | .Blue => 'B'
  | .White => 'W'

/-- Modelled from the spec: values 1..5 render as single decimal digits
(the Display of Value in cards.rs, external to src/). -/
def display_value : Value → Char
  | .one => '1'
  | .two => '2'
  | .three => '3'
  | .four => '4'
  | .five => '5'

/-- The Display implementation for SimpleCardInfo (info.rs lines 196-214):
push one indicator per still-possible color in catalog order, push one
space, push one indicator per still-possible value in catalog order.  The
final f.pad applies the caller-configured field width to this canonical
string and is external formatter behavior. -/
def SimpleCardInfo.render (s : SimpleCardInfo) : String :=
  let afterColors := COLORS.foldl
    (fun acc color =>
      if Info.is_possible s.color_info color then acc.push (display_color color) else acc) ""
  let afterSpace := afterColors.push ' '
  VALUES.foldl
    (fun acc value =>
      if Info.is_possible s.value_info value then acc.push (display_value value) else acc)
    afterSpace

/-! Basic catalog facts and bridge lemmas. -/

/-- Every color is in the catalog enumeration. -/
lemma mem_COLORS (c : Color) : c ∈ COLORS := by cases c <;> simp [COLORS]

/-- Every value is in the catalog enumeration. -/
lemma mem_VALUES (v : Value) : v ∈ VALUES := by cases v <;> simp [VALUES]

/-- Every card is in the catalog Cartesian product. -/
lemma mem_get_all_possibilities (card : Card) : card ∈ get_all_possibilities := by
  simp only [get_all_possibilities, List.mem_flatMap, List.mem_map]
  exact ⟨card.color, mem_COLORS card.color, card.value, mem_VALUES card.value, rfl⟩

@[simp] lemma Info.is_possible_eq_true {T : Type} [DecidableEq T] (s : Finset T) (v : T) :
    Info.is_possible s v = true ↔ v ∈ s := by
  simp [Info.is_possible]

@[simp] lemma Info.is_possible_eq_false {T : Type} [DecidableEq T] (s : Finset T) (v : T) :
    Info.is_possible s v = false ↔ v ∉ s := by
  simp [Info.is_possible]

@[simp] lemma simple_is_possible_eq :
    (CardInfo.is_possible : SimpleCardInfo → Card → Bool) = SimpleCardInfo.is_possible := rfl

@[simp] lemma simple_mark_color_false_eq :
    (CardInfo.mark_color_false : SimpleCardInfo → Color → SimpleCardInfo)
      = SimpleCardInfo.mark_color_false := rfl

@[simp] lemma simple_mark_value_false_eq :
    (CardInfo.mark_value_false : SimpleCardInfo → Value → SimpleCardInfo)
      = SimpleCardInfo.mark_value_false := rfl

@[simp] lemma simple_get_weight_eq :
    (CardInfo.get_weight : SimpleCardInfo → Card → Nat) = SimpleCardInfo.get_weight := rfl

@[simp] lemma simple_get_possibilities_eq :
    (CardInfo.get_possibilities : SimpleCardInfo → List Card)
      = SimpleCardInfo.get_possibilities := rfl

@[simp] lemma table_is_possible_eq :
    (CardInfo.is_possible : CardPossibilityTable → Card → Bool)
      = CardPossibilityTable.is_possible := rfl

@[simp] lemma table_mark_color_false_eq :
    (CardInfo.mark_color_false : CardPossibilityTable → Color → CardPossibilityTable)
      = CardPossibilityTable.mark_color_false := rfl

@[simp] lemma table_mark_value_false_eq :
    (CardInfo.mark_value_false : CardPossibilityTable → Value → CardPossibilityTable)
      = CardPossibilityTable.mark_value_false := rfl

@[simp] lemma table_get_weight_eq :
    (CardInfo.get_weight : CardPossibilityTable → Card → Nat)
      = CardPossibilityTable.get_weight := rfl

@[simp] lemma table_get_possibilities_eq :
    (CardInfo.get_possibilities : CardPossibilityTable → List Card)
      = CardPossibilityTable.get_possibilities := rfl

/-! Pointwise effect characterizations for SimpleCardInfo. -/

lemma SimpleCardInfo.simple_poss_iff (s : SimpleCardInfo) (card : Card) :
    s.is_possible card = true ↔ card.color ∈ s.color_info ∧ card.value ∈ s.value_info := by
  simp [SimpleCardInfo.is_possible]

lemma SimpleCardInfo.simple_color_false_poss (s : SimpleCardInfo) (color : Color) (card : Card) :
    (s.mark_color_false color).is_possible card = true ↔
      s.is_possible card = true ∧ card.color ≠ color := by
  simp [SimpleCardInfo.simple_poss_iff, SimpleCardInfo.mark_color_false, Info.mark_false,
    Finset.mem_erase]
  tauto

lemma SimpleCardInfo.simple_value_false_poss (s : SimpleCardInfo) (value : Value) (card : Card) :
    (s.mark_value_false value).is_possible card = true ↔
      s.is_possible card = true ∧ card.value ≠ value := by
  simp [SimpleCardInfo.simple_poss_iff, SimpleCardInfo.mark_value_false, Info.mark_false,
    Finset.mem_erase]
  tauto

/-! Pointwise effect characterizations for CardPossibilityTable. -/

lemma CardPossibilityTable.mark_false_possible_eq (t : CardPossibilityTable) (card c : Card) :
    (t.mark_false card).possible c = if c = card then none else t.possible c := rfl

/-- Effect of folding mark_false over a list of cards. -/
lemma foldl_mark_false_possible (L : List Card) (t : CardPossibilityTable) (c : Card) :
    (L.foldl CardPossibilityTable.mark_false t).possible c
      = if c ∈ L then none else t.possible c := by
  induction L generalizing t with
  | nil => simp
  | cons x xs ih =>
    rw [List.foldl_cons, ih]
    by_cases hx : c = x
    · subst hx
      by_cases hmem : c ∈ xs <;>
        simp [hmem, CardPossibilityTable.mark_false_possible_eq]
    · by_cases hmem : c ∈ xs <;>
        simp [hmem, hx, CardPossibilityTable.mark_false_possible_eq, List.mem_cons]

lemma CardPossibilityTable.table_color_false_possible (t : CardPossibilityTable)
    (color : Color) (c : Card) :
    (t.mark_color_false color).possible c
      = if c.color = color then none else t.possible c := by
  have hfold :
      t.mark_color_false color
        = (VALUES.map (Card.new color)).foldl CardPossibilityTable.mark_false t := by
    rw [List.foldl_map]
    rfl
  rw [hfold, foldl_mark_false_possible]
  have hmem : c ∈ VALUES.map (Card.new color) ↔ c.color = color := by
    simp only [List.mem_map]
    constructor
    · rintro ⟨v, _, rfl⟩; rfl
    · intro h
      exact ⟨c.value, mem_VALUES c.value, by cases c; cases h; rfl⟩
  simp only [hmem]

lemma CardPossibilityTable.table_value_false_possible (t : CardPossibilityTable)
    (value : Value) (c : Card) :
    (t.mark_value_false value).possible c
      = if c.value = value then none else t.possible c := by
  have hfold :
      t.mark_value_false value
        = (COLORS.map (fun color => Card.new color value)).foldl
            CardPossibilityTable.mark_false t := by
    rw [List.foldl_map]
    rfl
  rw [hfold, foldl_mark_false_possible]
  have hmem : c ∈ COLORS.map (fun color => Card.new color value) ↔ c.value = value := by
    simp only [List.mem_map]
    constructor
    · rintro ⟨x, _, rfl⟩; rfl
    · intro h
      exact ⟨c.color, mem_COLORS c.color, by cases c; cases h; rfl⟩
  simp only [hmem]

lemma CardPossibilityTable.table_poss_iff (t : CardPossibilityTable) (card : Card) :
    t.is_possible card = true ↔ (t.possible card).isSome = true := Iff.rfl

lemma CardPossibilityTable.table_color_false_poss (t : CardPossibilityTable)
    (color : Color) (card : Card) :
    (t.mark_color_false color).is_possible card = true ↔
      t.is_possible card = true ∧ card.color ≠ color := by
  rw [CardPossibilityTable.table_poss_iff, CardPossibilityTable.table_poss_iff,
    CardPossibilityTable.table_color_false_possible]
  by_cases h : card.color = color <;> simp [h]

lemma CardPossibilityTable.table_value_false_poss (t : CardPossibilityTable)
    (value : Value) (card : Card) :
    (t.mark_value_false value).is_possible card = true ↔
      t.is_possible card = true ∧ card.value ≠ value := by
  rw [CardPossibilityTable.table_poss_iff, CardPossibilityTable.table_poss_iff,
    CardPossibilityTable.table_value_false_possible]
  by_cases h : card.value = value <;> simp [h]

/-! Effect of the derived mark_color_true / mark_value_true loops.  The loop
shape (skip the kept attribute value, mark every other one false) is shared
between the two attributes and the two models, so it is characterized once,
parameterized by the pointwise effect of the underlying mark operation. -/

lemma foldl_mark_skip {σ A : Type} [DecidableEq A]
    (mark : σ → A → σ) (poss : σ → Card → Prop) (attr : Card → A)
    (heff : ∀ s a card, poss (mark s a) card ↔ poss s card ∧ attr card ≠ a)
    (L : List A) (a0 : A) (s : σ) (card : Card) :
    poss (L.foldl (fun s oa => if oa = a0 then s else mark s oa) s) card
      ↔ poss s card ∧ (attr card ∈ L → attr card = a0) := by
  induction L generalizing s with
  | nil => simp
  | cons x xs ih =>
    by_cases hx : x = a0
    · subst hx
      simp only [List.foldl_cons, if_pos rfl, ih, List.mem_cons]
      tauto
    · simp only [List.foldl_cons, if_neg hx, ih, heff, List.mem_cons]
      constructor
      · rintro ⟨⟨hp, hne⟩, h⟩
        refine ⟨hp, ?_⟩
        rintro (h1 | h2)
        · exact absurd h1 hne
        · exact h h2
      · rintro ⟨hp, h⟩
        have hne : attr card ≠ x := fun he => hx (he.symm.trans (h (Or.inl he)))
        exact ⟨⟨hp, hne⟩, fun h2 => h (Or.inr h2)⟩

lemma SimpleCardInfo.simple_color_true_poss (s : SimpleCardInfo) (color : Color) (card : Card) :
    CardInfo.is_possible (mark_color_true s color) card = true ↔
      s.is_possible card = true ∧ card.color = color := by
  have h := foldl_mark_skip SimpleCardInfo.mark_color_false
    (fun s card => SimpleCardInfo.is_possible s card = true) Card.color
    SimpleCardInfo.simple_color_false_poss COLORS color s card
  simpa [mark_color_true, mem_COLORS] using h

lemma SimpleCardInfo.simple_value_true_poss (s : SimpleCardInfo) (value : Value) (card : Card) :
    CardInfo.is_possible (mark_value_true s value) card = true ↔
      s.is_possible card = true ∧ card.value = value := by
  have h := foldl_mark_skip SimpleCardInfo.mark_value_false
    (fun s card => SimpleCardInfo.is_possible s card = true) Card.value
    SimpleCardInfo.simple_value_false_poss VALUES value s card
  simpa [mark_value_true, mem_VALUES] using h

lemma CardPossibilityTable.table_color_true_poss (t : CardPossibilityTable)
    (color : Color) (card : Card) :
    CardInfo.is_possible (mark_color_true t color) card = true ↔
      t.is_possible card = true ∧ card.color = color := by
  have h := foldl_mark_skip CardPossibilityTable.mark_color_false
    (fun t card => CardPossibilityTable.is_possible t card = true) Card.color
    CardPossibilityTable.table_color_false_poss COLORS color t card
  simpa [mark_color_true, mem_COLORS] using h

lemma CardPossibilityTable.table_value_true_poss (t : CardPossibilityTable)
    (value : Value) (card : Card) :
    CardInfo.is_possible (mark_value_true t value) card = true ↔
      t.is_possible card = true ∧ card.value = value := by
  have h := foldl_mark_skip CardPossibilityTable.mark_value_false
    (fun t card => CardPossibilityTable.is_possible t card = true) Card.value
    CardPossibilityTable.table_value_false_poss VALUES value t card
  simpa [mark_value_true, mem_VALUES] using h

lemma bool_eq_of_iff {a b : Bool} (h : a = true ↔ b = true) : a = b := by
  cases a <;> cases b <;> simp_all

/-! Frame property of the table: every operation either leaves an entry
(with its weight) untouched or removes it, never anything else. -/

lemma table_foldl_frame {A : Type} (f : CardPossibilityTable → A → CardPossibilityTable)
    (hf : ∀ t a, ∀ c : Card, (f t a).possible c = t.possible c ∨ (f t a).possible c = none)
    (L : List A) (t : CardPossibilityTable) (c : Card) :
    (L.foldl f t).possible c = t.possible c ∨ (L.foldl f t).possible c = none := by
  induction L generalizing t with
  | nil => left; rfl
  | cons x xs ih =>
    rw [List.foldl_cons]
    rcases ih (f t x) with h | h
    · rw [h]; exact hf t x c
    · right; exact h

lemma CardPossibilityTable.mark_color_false_frame (t : CardPossibilityTable)
    (color : Color) (c : Card) :
    (t.mark_color_false color).possible c = t.possible c ∨
      (t.mark_color_false color).possible c = none := by
  rw [CardPossibilityTable.table_color_false_possible]
  split
  · right; rfl
  · left; rfl

lemma CardPossibilityTable.mark_value_false_frame (t : CardPossibilityTable)
    (value : Value) (c : Card) :
    (t.mark_value_false value).possible c = t.possible c ∨
      (t.mark_value_false value).possible c = none := by
  rw [CardPossibilityTable.table_value_false_possible]
  split
  · right; rfl
  · left; rfl

lemma applyOp_frame (t : CardPossibilityTable) (op : CardOp) (c : Card) :
    (applyOp t op).possible c = t.possible c ∨ (applyOp t op).possible c = none := by
  cases op with
  | colorFalse color => exact t.mark_color_false_frame color c
  | valueFalse value => exact t.mark_value_false_frame value c
  | colorTrue color =>
    refine table_foldl_frame _ ?_ COLORS t c
    intro t a c
    by_cases ha : a = color
    · left; rw [if_pos ha]
    · rw [if_neg ha]
      exact t.mark_color_false_frame a c
  | valueTrue value =>
    refine table_foldl_frame _ ?_ VALUES t c
    intro t a c
    by_cases ha : a = value
    · left; rw [if_pos ha]
    · rw [if_neg ha]
      exact t.mark_value_false_frame a c

lemma applyOps_frame (ops : List CardOp) (t : CardPossibilityTable) (c : Card) :
    (applyOps t ops).possible c = t.possible c ∨ (applyOps t ops).possible c = none :=
  table_foldl_frame applyOp (fun t op c => applyOp_frame t op c) ops t c

/-- Every table state reachable from new holds, at every card, either the
seeded deck count or nothing. -/
lemma applyOps_possible_cases (ops : List CardOp) (card : Card) :
    (applyOps CardPossibilityTable.new ops).possible card
        = some (get_count_for_value card.value) ∨
      (applyOps CardPossibilityTable.new ops).possible card = none :=
  applyOps_frame ops CardPossibilityTable.new card

/-! Membership in the get_possibilities lists coincides with is_possible. -/

lemma SimpleCardInfo.simple_mem_poss_list (s : SimpleCardInfo) (card : Card) :
    card ∈ s.get_possibilities ↔ s.is_possible card = true := by
  cases card with
  | mk cc cv =>
    simp [SimpleCardInfo.get_possibilities, SimpleCardInfo.is_possible, List.mem_flatMap,
      List.mem_filter, List.mem_map, Card.new, mem_COLORS, mem_VALUES, Info.is_possible]

lemma CardPossibilityTable.table_mem_poss_list (t : CardPossibilityTable) (card : Card) :
    card ∈ t.get_possibilities ↔ t.is_possible card = true := by
  simp [CardPossibilityTable.get_possibilities, List.mem_filter, mem_get_all_possibilities,
    CardPossibilityTable.is_possible]

/-! The two card models narrow identically under color/value-wide
operations. -/

lemma applyOp_poss_eq (s : SimpleCardInfo) (t : CardPossibilityTable)
    (h : ∀ card, CardInfo.is_possible s card = CardInfo.is_possible t card)
    (op : CardOp) (card : Card) :
    CardInfo.is_possible (applyOp s op) card = CardInfo.is_possible (applyOp t op) card := by
  have hiff : CardInfo.is_possible s card = true ↔ CardInfo.is_possible t card = true := by
    rw [h card]
  apply bool_eq_of_iff
  cases op with
  | colorFalse color =>
    simp only [applyOp, simple_mark_color_false_eq, table_mark_color_false_eq,
      simple_is_possible_eq, table_is_possible_eq]
    rw [SimpleCardInfo.simple_color_false_poss, CardPossibilityTable.table_color_false_poss]
    simp only [simple_is_possible_eq, table_is_possible_eq] at hiff
    rw [hiff]
  | valueFalse value =>
    simp only [applyOp, simple_mark_value_false_eq, table_mark_value_false_eq,
      simple_is_possible_eq, table_is_possible_eq]
    rw [SimpleCardInfo.simple_value_false_poss, CardPossibilityTable.table_value_false_poss]
    simp only [simple_is_possible_eq, table_is_possible_eq] at hiff
    rw [hiff]
  | colorTrue color =>
    simp only [applyOp]
    rw [SimpleCardInfo.simple_color_true_poss, CardPossibilityTable.table_color_true_poss]
    simp only [simple_is_possible_eq, table_is_possible_eq] at hiff
    rw [hiff]
  | valueTrue value =>
    simp only [applyOp]
    rw [SimpleCardInfo.simple_value_true_poss, CardPossibilityTable.table_value_true_poss]
    simp only [simple_is_possible_eq, table_is_possible_eq] at hiff
    rw [hiff]

lemma applyOps_poss_eq (ops : List CardOp) (s : SimpleCardInfo) (t : CardPossibilityTable)
    (h : ∀ card, CardInfo.is_possible s card = CardInfo.is_possible t card) (card : Card) :
    CardInfo.is_possible (applyOps s ops) card
      = CardInfo.is_possible (applyOps t ops) card := by
  induction ops generalizing s t with
  | nil => exact h card
  | cons op ops ih =>
    simp only [applyOps, List.foldl_cons]
    exact ih (applyOp s op) (applyOp t op) (fun c => applyOp_poss_eq s t h op c)

lemma new_poss_eq (card : Card) :
    CardInfo.is_possible SimpleCardInfo.new card
      = CardInfo.is_possible CardPossibilityTable.new card := by
  cases card with
  | mk cc cv => cases cc <;> cases cv <;> rfl

/-! Monotonicity of the excluding operations. -/

lemma poss_step_false {a b : Bool} {P : Prop} (hiff : b = true ↔ a = true ∧ P)
    (h : a = false) : b = false := by
  rw [Bool.eq_false_iff] at h ⊢
  intro hb
  exact h (hiff.mp hb).1

lemma applyFalses_not_mem {T : Type} [DecidableEq T] (s : Finset T) (vs : List T) (v : T)
    (h : v ∉ s) : v ∉ applyFalses s vs := by
  induction vs generalizing s with
  | nil => exact h
  | cons x xs ih =>
    simp only [applyFalses, List.foldl_cons]
    exact ih (Info.mark_false s x) (fun hc => h (Finset.mem_of_mem_erase hc))

lemma simple_applyExclOps_not_poss (s : SimpleCardInfo) (ops : List ExclOp) (card : Card)
    (h : CardInfo.is_possible s card = false) :
    CardInfo.is_possible (applyExclOps s ops) card = false := by
  induction ops generalizing s with
  | nil => exact h
  | cons op ops ih =>
    simp only [applyExclOps, List.foldl_cons]
    apply ih
    simp only [simple_is_possible_eq] at h ⊢
    cases op with
    | colorFalse color =>
      exact poss_step_false (SimpleCardInfo.simple_color_false_poss s color card) h
    | valueFalse value =>
      exact poss_step_false (SimpleCardInfo.simple_value_false_poss s value card) h

lemma table_applyExclOps_not_poss (t : CardPossibilityTable) (ops : List ExclOp) (card : Card)
    (h : CardInfo.is_possible t card = false) :
    CardInfo.is_possible (applyExclOps t ops) card = false := by
  induction ops generalizing t with
  | nil => exact h
  | cons op ops ih =>
    simp only [applyExclOps, List.foldl_cons]
    apply ih
    simp only [table_is_possible_eq] at h ⊢
    cases op with
    | colorFalse color =>
      exact poss_step_false (CardPossibilityTable.table_color_false_poss t color card) h
    | valueFalse value =>
      exact poss_step_false (CardPossibilityTable.table_value_false_poss t value card) h

/-! The canonical rendering decomposes into runs. -/

lemma foldl_push_filter {A : Type} (p : A → Bool) (f : A → Char) (L : List A) (acc : String) :
    L.foldl (fun acc a => if p a then acc.push (f a) else acc) acc
      = ⟨acc.data ++ (L.filter p).map f⟩ := by
  induction L generalizing acc with
  | nil => simp
  | cons x xs ih =>
    rw [List.foldl_cons, ih]
    by_cases hx : p x
    · rw [if_pos hx]
      simp [String.push, List.filter_cons, hx]
    · rw [if_neg hx]
      simp [List.filter_cons, hx]

/-- The SimpleCardInfo of the display scenario: narrowed to colors {Red}
and values {1, 2} by color/value-wide operations. -/
def narrowedRed12 : SimpleCardInfo :=
  applyOps SimpleCardInfo.new
    [CardOp.colorTrue Color.Red, CardOp.valueFalse Value.three,
     CardOp.valueFalse Value.four, CardOp.valueFalse Value.five]

/-! Claim theorems. -/

/-- C1 counterexample: with Value.three already excluded from a fresh value
tracker, Info::mark_true (info.rs lines 117-121) completes normally, no
assertion fires, and the call returns the narrowed set containing exactly
three; it does not fail fast as claimed. -/
theorem mark_true_excluded_completes_cx :
    Info.is_possible (Info.mark_false ValueInfo.new Value.three) Value.three = false ∧
    Info.mark_true (Info.mark_false ValueInfo.new Value.three) Value.three
      = ({Value.three} : Finset Value) := by
  constructor
  · decide
  · decide

/-- C1 (amended): Info::mark_true performs no exclusion check: on every
tracker state, including a state where the given value was already excluded,
it completes normally and resets the possibility set to exactly the
singleton of that value. -/
theorem mark_true_always_resets (T : Type) [DecidableEq T] (s : Finset T) (v : T) :
    Info.mark_true s v = ({v} : Finset T) := by
  simp [Info.mark_true]

/-- C2 counterexample: SimpleCardInfo keeps the trait-default get_weight of
1 (info.rs lines 39-42), so a card excluded by mark_color_false still
reports weight 1, not 0. -/
theorem simple_weight_excluded_cx :
    CardInfo.is_possible (CardInfo.mark_color_false SimpleCardInfo.new Color.Red)
        (Card.new Color.Red Value.one) = false ∧
    CardInfo.get_weight (CardInfo.mark_color_false SimpleCardInfo.new Color.Red)
        (Card.new Color.Red Value.one) = 1 := by
  constructor
  · decide
  · decide

/-- C2 (amended): for CardPossibilityTable an excluded card weighs 0 and the
query does not error; SimpleCardInfo instead reports the trait-default
weight 1 for every card, possible or not. -/
theorem weight_of_excluded :
    (∀ (t : CardPossibilityTable) (card : Card),
        CardInfo.is_possible t card = false → CardInfo.get_weight t card = 0) ∧
    (∀ (s : SimpleCardInfo) (card : Card), CardInfo.get_weight s card = 1) := by
  constructor
  · intro t card h
    simp only [table_is_possible_eq, CardPossibilityTable.is_possible] at h
    simp only [table_get_weight_eq, CardPossibilityTable.get_weight]
    cases hv : t.possible card with
    | none => rfl
    | some n => rw [hv] at h; simp at h
  · intro s card
    rfl

/-- C2 witness: a concretely excluded card of a concrete table weighs 0. -/
theorem weight_of_excluded_saw :
    CardInfo.get_weight (CardInfo.mark_color_false CardPossibilityTable.new Color.Red)
      (Card.new Color.Red Value.one) = 0 :=
  weight_of_excluded.1 _ _ (by decide)

/-- C3 counterexample: on the fresh table the weights for value 1 across the
five still-possible colors sum to 15, exceeding the deck copy count 3. -/
theorem value_weight_sum_exceeds_cx :
    sum_weights_for_value CardPossibilityTable.new Value.one = 15 ∧
    get_count_for_value Value.one = 3 ∧
    ¬ sum_weights_for_value CardPossibilityTable.new Value.one
        ≤ get_count_for_value Value.one := by
  refine ⟨by decide, by decide, by decide⟩

/-- C3 (amended): in every table reachable from new by color/value-wide
operations, the weight of each individual still-possible card never exceeds
the deck copy count for its value (the sum across the possible colors of a
value can exceed that count, as the counterexample shows). -/
theorem weight_le_count (ops : List CardOp) (card : Card) :
    CardInfo.get_weight (applyOps CardPossibilityTable.new ops) card
      ≤ get_count_for_value card.value := by
  rcases applyOps_possible_cases ops card with h | h <;>
    simp [table_get_weight_eq, CardPossibilityTable.get_weight, h]

/-- C4: after any sequence of color/value-wide operations (the false
primitives and the derived true operations), SimpleCardInfo and
CardPossibilityTable report the same set of possible cards. -/
theorem models_agree_on_possibilities (ops : List CardOp) (card : Card) :
    card ∈ CardInfo.get_possibilities (applyOps SimpleCardInfo.new ops) ↔
      card ∈ CardInfo.get_possibilities (applyOps CardPossibilityTable.new ops) := by
  have h := applyOps_poss_eq ops SimpleCardInfo.new CardPossibilityTable.new new_poss_eq card
  simp only [simple_get_possibilities_eq, table_get_possibilities_eq]
  rw [SimpleCardInfo.simple_mem_poss_list, CardPossibilityTable.table_mem_poss_list]
  simp only [simple_is_possible_eq, table_is_possible_eq] at h
  rw [h]

/-- C5: across all three trackers, an element that is not possible never
becomes possible again under further excluding calls (mark_false for the
attribute trackers, mark_color_false / mark_value_false for the card
models). -/
theorem exclusions_never_reinsert :
    (∀ (T : Type) [DecidableEq T] (s : Finset T) (vs : List T) (v : T),
        Info.is_possible s v = false → Info.is_possible (applyFalses s vs) v = false) ∧
    (∀ (s : SimpleCardInfo) (ops : List ExclOp) (card : Card),
        CardInfo.is_possible s card = false →
          CardInfo.is_possible (applyExclOps s ops) card = false) ∧
    (∀ (t : CardPossibilityTable) (ops : List ExclOp) (card : Card),
        CardInfo.is_possible t card = false →
          CardInfo.is_possible (applyExclOps t ops) card = false) := by
  refine ⟨?_, simple_applyExclOps_not_poss, table_applyExclOps_not_poss⟩
  intro T _ s vs v h
  simp only [Info.is_possible_eq_false] at h ⊢
  exact applyFalses_not_mem s vs v h

/-- C5 witness: concretely, an excluded value or card stays excluded after
further exclusions, in all three trackers. -/
theorem exclusions_never_reinsert_saw :
    Info.is_possible
        (applyFalses (Info.mark_false ValueInfo.new Value.two) [Value.one, Value.three])
        Value.two = false ∧
    CardInfo.is_possible
        (applyExclOps (CardInfo.mark_color_false SimpleCardInfo.new Color.Green)
          [ExclOp.valueFalse Value.one]) (Card.new Color.Green Value.two) = false ∧
    CardInfo.is_possible
        (applyExclOps (CardInfo.mark_value_false CardPossibilityTable.new Value.five)
          [ExclOp.colorFalse Color.Blue]) (Card.new Color.White Value.five) = false :=
  ⟨exclusions_never_reinsert.1 Value _ _ _ (by decide),
   exclusions_never_reinsert.2.1 _ _ _ (by decide),
   exclusions_never_reinsert.2.2 _ _ _ (by decide)⟩

/-- C6: every freshly constructed tracker reports possibilities equal to
all_possibilities as a set, with no omissions and no duplicates; for the
card models this is the full 25-card Cartesian product of the 5-color,
5-value catalog. -/
theorem fresh_possibilities_complete :
    (∀ c : Color, Info.is_possible ColorInfo.new c = true) ∧ COLORS.Nodup ∧
    (∀ v : Value, Info.is_possible ValueInfo.new v = true) ∧ VALUES.Nodup ∧
    (SimpleCardInfo.get_possibilities SimpleCardInfo.new).Nodup ∧
    (∀ card : Card,
        card ∈ SimpleCardInfo.get_possibilities SimpleCardInfo.new ↔
          card ∈ get_all_possibilities) ∧
    (CardPossibilityTable.get_possibilities CardPossibilityTable.new).Nodup ∧
    (∀ card : Card,
        card ∈ CardPossibilityTable.get_possibilities CardPossibilityTable.new ↔
          card ∈ get_all_possibilities) ∧
    get_all_possibilities.Nodup ∧ get_all_possibilities.length = 25 := by
  decide

/-- C7: on both card models, mark_color_true keeps exactly the prior
possibilities of the given color, and mark_value_true exactly those of the
given value. -/
theorem mark_attr_true_narrows :
    (∀ (s : SimpleCardInfo) (color : Color) (card : Card),
        CardInfo.is_possible (mark_color_true s color) card = true ↔
          CardInfo.is_possible s card = true ∧ card.color = color) ∧
    (∀ (s : SimpleCardInfo) (value : Value) (card : Card),
        CardInfo.is_possible (mark_value_true s value) card = true ↔
          CardInfo.is_possible s card = true ∧ card.value = value) ∧
    (∀ (t : CardPossibilityTable) (color : Color) (card : Card),
        CardInfo.is_possible (mark_color_true t color) card = true ↔
          CardInfo.is_possible t card = true ∧ card.color = color) ∧
    (∀ (t : CardPossibilityTable) (value : Value) (card : Card),
        CardInfo.is_possible (mark_value_true t value) card = true ↔
          CardInfo.is_possible t card = true ∧ card.value = value) :=
  ⟨SimpleCardInfo.simple_color_true_poss, SimpleCardInfo.simple_value_true_poss,
   CardPossibilityTable.table_color_true_poss, CardPossibilityTable.table_value_true_poss⟩

/-- C8: mark_color_false removes exactly the entries of the given color:
cards of that color lose their entry, every other entry keeps both its
presence and its weight; symmetrically for mark_value_false. -/
theorem mark_attr_false_exact_frame :
    (∀ (t : CardPossibilityTable) (color : Color) (card : Card),
        (CardInfo.mark_color_false t color).possible card
          = if card.color = color then none else t.possible card) ∧
    (∀ (t : CardPossibilityTable) (value : Value) (card : Card),
        (CardInfo.mark_value_false t value).possible card
          = if card.value = value then none else t.possible card) :=
  ⟨CardPossibilityTable.table_color_false_possible,
   CardPossibilityTable.table_value_false_possible⟩

/-- C9: the canonical rendering is the run of indicators of the
still-possible colors in catalog order, exactly one space, then the run of
indicators of the still-possible values in catalog order; narrowed to colors
{Red} and values {1, 2} it renders "R 12", a color run of length 1, a space
and a value run of length 2. -/
theorem render_runs :
    (∀ s : SimpleCardInfo,
        s.render =
          ⟨((COLORS.filter (fun color => Info.is_possible s.color_info color)).map
              display_color)
            ++ ' ' ::
              ((VALUES.filter (fun value => Info.is_possible s.value_info value)).map
                display_value)⟩) ∧
    SimpleCardInfo.render narrowedRed12 = "R 12" ∧
    ((COLORS.filter (fun color => Info.is_possible narrowedRed12.color_info color)).map
        display_color).length = 1 ∧
    ((VALUES.filter (fun value => Info.is_possible narrowedRed12.value_info value)).map
        display_value).length = 2 := by
  refine ⟨?_, by decide, by decide, by decide⟩
  intro s
  simp only [SimpleCardInfo.render]
  rw [foldl_push_filter, foldl_push_filter]
  simp [String.push]

/-- C10: in every table state reachable from new by color/value-wide
operations, a still-possible card weighs exactly its seeded deck copy count
and an impossible card weighs 0 (never a partially decremented value);
moreover every single operation either leaves an entry untouched or removes
it. -/
theorem table_weight_all_or_nothing :
    (∀ (ops : List CardOp) (card : Card),
        CardInfo.get_weight (applyOps CardPossibilityTable.new ops) card
          = if CardInfo.is_possible (applyOps CardPossibilityTable.new ops) card = true
            then get_count_for_value card.value else 0) ∧
    (∀ (t : CardPossibilityTable) (op : CardOp) (card : Card),
        (applyOp t op).possible card = t.possible card ∨
          (applyOp t op).possible card = none) := by
  constructor
  · intro ops card
    rcases applyOps_possible_cases ops card with h | h <;>
      simp [table_get_weight_eq, table_is_possible_eq, CardPossibilityTable.get_weight,
        CardPossibilityTable.is_possible, h]
  · exact applyOp_frame

end HanabiInfo
